import Mathlib

/-!
Verification of the masumi-skills payment engine: canonical hashing
(src/skills/masumi-payments/src/utils/hashing.ts), the encryption vault
(src/skills/masumi-payments/src/utils/encryption.ts and the credential
store), the retry client (src/skills/masumi-payments/src/utils/api-client.ts)
and the payment manager (src/skills/masumi-payments/src/managers/payment.ts),
shallowly embedded in Lean.
-/

set_option maxRecDepth 100000

namespace Masumi

/-! ## Bytes and UTF-8

Node computes every digest over the UTF-8 bytes of the pre-image string
(`createHash('sha256').update(preImage, 'utf8')`). Bytes are modelled as
natural numbers below 256. -/

/-- UTF-8 encoding of one Unicode code point, written with division and
remainder (equivalent to the usual shift-and-mask form). -/
def utf8EncodeChar (n : Nat) : List Nat :=
  if n < 128 then [n]
  else if n < 2048 then [192 + n / 64, 128 + n % 64]
  else if n < 65536 then [224 + n / 4096, 128 + n / 64 % 64, 128 + n % 64]
  else [240 + n / 262144, 128 + n / 4096 % 64, 128 + n / 64 % 64, 128 + n % 64]

/-- UTF-8 bytes of a string, as Node produces them for hashing. -/
def utf8Bytes (s : String) : List Nat :=
  s.data.flatMap (fun c => utf8EncodeChar c.toNat)

/-! ## SHA-256

Executable embedding of SHA-256 (FIPS 180-4), the function behind
`createHash('sha256')` in hashing.ts. Words are naturals reduced mod 2^32. -/

/-- Reduce to a 32-bit word. -/
def m32 (x : Nat) : Nat := x % 4294967296

/-- Right rotation of a 32-bit word. -/
def rotr32 (n x : Nat) : Nat := m32 ((x >>> n) ||| (x <<< (32 - n)))

/-- Choice function of the compression round. -/
def sha256Ch (x y z : Nat) : Nat := (x &&& y) ^^^ ((x ^^^ 4294967295) &&& z)

/-- Majority function of the compression round. -/
def sha256Maj (x y z : Nat) : Nat := (x &&& y) ^^^ (x &&& z) ^^^ (y &&& z)

/-- Big sigma 0. -/
def bigS0 (x : Nat) : Nat := rotr32 2 x ^^^ rotr32 13 x ^^^ rotr32 22 x

/-- Big sigma 1. -/
def bigS1 (x : Nat) : Nat := rotr32 6 x ^^^ rotr32 11 x ^^^ rotr32 25 x

/-- Small sigma 0 of the message schedule. -/
def smallS0 (x : Nat) : Nat := rotr32 7 x ^^^ rotr32 18 x ^^^ (x >>> 3)

/-- Small sigma 1 of the message schedule. -/
def smallS1 (x : Nat) : Nat := rotr32 17 x ^^^ rotr32 19 x ^^^ (x >>> 10)

/-- The 64 SHA-256 round constants (decimal rendering of the FIPS 180-4
table). -/
def sha256K : List Nat :=
  [1116352408, 1899447441, 3049323471, 3921009573, 961987163, 1508970993,
   2453635748, 2870763221, 3624381080, 310598401, 607225278, 1426881987,
   1925078388, 2162078206, 2614888103, 3248222580, 3835390401, 4022224774,
   264347078, 604807628, 770255983, 1249150122, 1555081692, 1996064986,
   2554220882, 2821834349, 2952996808, 3210313671, 3336571891, 3584528711,
   113926993, 338241895, 666307205, 773529912, 1294757372, 1396182291,
   1695183700, 1986661051, 2177026350, 2456956037, 2730485921, 2820302411,
   3259730800, 3345764771, 3516065817, 3600352804, 4094571909, 275423344,
   430227734, 506948616, 659060556, 883997877, 958139571, 1322822218,
   1537002063, 1747873779, 1955562222, 2024104815, 2227730452, 2361852424,
   2428436474, 2756734187, 3204031479, 3329325298]

/-- The SHA-256 initial hash value (decimal rendering). -/
def sha256H0 : List Nat :=
  [1779033703, 3144134277, 1013904242, 2773480762,
   1359893119, 2600822924, 528734635, 1541459225]

/-- Big-endian 8-byte rendering of a length in bits. -/
def be64 (n : Nat) : List Nat :=
  [n / 72057594037927936 % 256, n / 281474976710656 % 256,
   n / 1099511627776 % 256, n / 4294967296 % 256,
   n / 16777216 % 256, n / 65536 % 256, n / 256 % 256, n % 256]

/-- Merkle-Damgard padding: a 0x80 byte, zeros up to 56 mod 64, then the
bit length, big-endian in 8 bytes. -/
def sha256Pad (msg : List Nat) : List Nat :=
  msg ++ 128 :: List.replicate ((119 - msg.length % 64) % 64) 0 ++ be64 (8 * msg.length)

/-- Group bytes into big-endian 32-bit words. -/
def bytesToWords : List Nat → List Nat
  | a :: b :: c :: d :: rest => (a * 16777216 + b * 65536 + c * 256 + d) :: bytesToWords rest
  | _ => []

/-- Extend 16 message words to the 64-entry schedule. -/
def sha256Schedule (ws : List Nat) : Array Nat :=
  (List.range 48).foldl
    (fun arr j =>
      let i := j + 16
      arr.push (m32 (smallS1 (arr.getD (i - 2) 0) + arr.getD (i - 7) 0 +
        smallS0 (arr.getD (i - 15) 0) + arr.getD (i - 16) 0)))
    ws.toArray

/-- Working variables of the compression function. -/
structure Sha256State where
  a : Nat
  b : Nat
  c : Nat
  d : Nat
  e : Nat
  f : Nat
  g : Nat
  h : Nat

/-- One compression round, consuming a round constant and a schedule word. -/
def sha256Round (st : Sha256State) (kw : Nat × Nat) : Sha256State :=
  let t1 := m32 (st.h + bigS1 st.e + sha256Ch st.e st.f st.g + kw.1 + kw.2)
  let t2 := m32 (bigS0 st.a + sha256Maj st.a st.b st.c)
  ⟨m32 (t1 + t2), st.a, st.b, st.c, m32 (st.d + t1), st.e, st.f, st.g⟩

/-- Compress one 64-byte block into the running hash value. -/
def sha256Block (hs : List Nat) (block : List Nat) : List Nat :=
  let ws := sha256Schedule (bytesToWords block)
  let st0 : Sha256State :=
    ⟨hs.getD 0 0, hs.getD 1 0, hs.getD 2 0, hs.getD 3 0,
     hs.getD 4 0, hs.getD 5 0, hs.getD 6 0, hs.getD 7 0⟩
  let st := (sha256K.zip ws.toList).foldl sha256Round st0
  [m32 (hs.getD 0 0 + st.a), m32 (hs.getD 1 0 + st.b), m32 (hs.getD 2 0 + st.c),
   m32 (hs.getD 3 0 + st.d), m32 (hs.getD 4 0 + st.e), m32 (hs.getD 5 0 + st.f),
   m32 (hs.getD 6 0 + st.g), m32 (hs.getD 7 0 + st.h)]

/-- Split a padded message into its 64-byte blocks, counting them first so the
recursion is structural. -/
def toBlocksN : Nat → List Nat → List (List Nat)
  | 0, _ => []
  | n + 1, bytes => bytes.take 64 :: toBlocksN n (bytes.drop 64)

/-- The eight 32-bit words of the SHA-256 digest of a byte message. -/
def sha256Words (msg : List Nat) : List Nat :=
  let padded := sha256Pad msg
  (toBlocksN (padded.length / 64) padded).foldl sha256Block sha256H0

/-- Lowercase hexadecimal digits, zero to nine then a to f. -/
def hexDigits : List Char :=
  (List.range 10).map (fun i => Char.ofNat (48 + i)) ++
    (List.range 6).map (fun i => Char.ofNat (97 + i))

/-- Lowercase hexadecimal digit of a nibble. -/
def hexChar (n : Nat) : Char := hexDigits.getD n '0'

/-- Eight lowercase hex characters of a 32-bit word, most significant first. -/
def wordHexChars (w : Nat) : List Char :=
  [hexChar (w / 268435456 % 16), hexChar (w / 16777216 % 16),
   hexChar (w / 1048576 % 16), hexChar (w / 65536 % 16),
   hexChar (w / 4096 % 16), hexChar (w / 256 % 16),
   hexChar (w / 16 % 16), hexChar (w % 16)]

/-- SHA-256 of the UTF-8 bytes of a string, rendered as 64 lowercase hex
characters: the embedding of `createHash('sha256').update(s, 'utf8').digest('hex')`. -/
def sha256HexOfString (s : String) : String :=
  String.mk ((sha256Words (utf8Bytes s)).flatMap wordHexChars)

/-! ## Canonical hashing (src/skills/masumi-payments/src/utils/hashing.ts)

`createMasumiInputHash` serializes its input with the `canonicaljson`
dependency and hashes `identifier;canonicalJson`; `createMasumiOutputHash`
JSON-escapes its output string (`JSON.stringify(outputData).slice(1, -1)`)
and hashes `identifier;escapedOutput`. -/

/-- JSON string escaping of one character, following the ECMAScript
`JSON.stringify` quoting rules: quote and backslash get a backslash escape,
the five control shorthands apply, remaining control characters become
`\u00XX`, and every other character is passed through unchanged. -/
def escChar (c : Char) : List Char :=
  if c = '"' then ['\\', '"']
  else if c = '\\' then ['\\', '\\']
  else if c.toNat = 8 then ['\\', 'b']
  else if c.toNat = 9 then ['\\', 't']
  else if c.toNat = 10 then ['\\', 'n']
  else if c.toNat = 12 then ['\\', 'f']
  else if c.toNat = 13 then ['\\', 'r']
  else if c.toNat < 32 then
    ['\\', 'u', '0', '0', hexChar (c.toNat / 16), hexChar (c.toNat % 16)]
  else [c]

/-- Body of `JSON.stringify` applied to a string, without the surrounding
quotes: exactly `JSON.stringify(s).slice(1, -1)` from hashing.ts. -/
def jsonEscape (s : String) : String :=
  String.mk (s.data.flatMap escChar)

/-- Structured JSON payloads, the domain of `createMasumiInputHash`
(numbers restricted to integers, which the canonical form renders without
a decimal point). -/
inductive Json where
  | str (s : String)
  | num (n : Int)
  | bool (b : Bool)
  | null
  | arr (xs : List Json)
  | obj (kvs : List (String × Json))

/-- Ordering of object keys by Unicode code points, the sort order of the
canonical serialization. -/
def keyLeChars : List Char → List Char → Bool
  | [], _ => true
  | _ :: _, [] => false
  | a :: as, b :: bs =>
    if a.toNat < b.toNat then true
    else if b.toNat < a.toNat then false
    else keyLeChars as bs

/-- Insert one already-serialized object member into a key-sorted list. -/
def insertPair (p : String × String) : List (String × String) → List (String × String)
  | [] => [p]
  | q :: rest =>
    if keyLeChars p.1.data q.1.data then p :: q :: rest else q :: insertPair p rest

/-- Sort serialized object members by key. -/
def sortPairs : List (String × String) → List (String × String)
  | [] => []
  | p :: rest => insertPair p (sortPairs rest)

/-- Render one serialized object member as `"key":value`. -/
def memberString (p : String × String) : String :=
  "\"" ++ jsonEscape p.1 ++ "\":" ++ p.2

mutual

/-- Modelled from the spec: the `canonicaljson` npm dependency of hashing.ts
is not part of this repository, so its serializer is modelled from the
specification words: object members sorted by key, no insignificant
whitespace, RFC 8785 style. Values are serialized first, then members are
sorted by raw key, keeping the recursion structural. -/
def canonJson : Json → String
  | .str s => "\"" ++ jsonEscape s ++ "\""
  | .num n => toString n
  | .bool true => "true"
  | .bool false => "false"
  | .null => "null"
  | .arr xs => "[" ++ String.intercalate "," (canonElems xs) ++ "]"
  | .obj kvs =>
    "\x7b" ++ String.intercalate "," ((sortPairs (canonPairs kvs)).map memberString) ++ "\x7d"

/-- Serialize every array element. -/
def canonElems : List Json → List String
  | [] => []
  | x :: xs => canonJson x :: canonElems xs

/-- Serialize every object member value, keeping the raw key for sorting. -/
def canonPairs : List (String × Json) → List (String × String)
  | [] => []
  | (k, v) :: rest => (k, canonJson v) :: canonPairs rest

end

/-- Embedding of `createMasumiInputHash` from hashing.ts: canonical JSON of
the input, pre-image `identifier;canonicalJson`, SHA-256, lowercase hex. -/
def createMasumiInputHash (inputData : Json) (identifierFromPurchaser : String) : String :=
  let canonicalJson := canonJson inputData
  let preImage := identifierFromPurchaser ++ ";" ++ canonicalJson
  sha256HexOfString preImage

/-- Embedding of `createMasumiOutputHash` from hashing.ts: the output string
is JSON-escaped (`JSON.stringify(outputData).slice(1, -1)`), the pre-image is
`identifier;escapedOutput`, then SHA-256, lowercase hex. -/
def createMasumiOutputHash (outputData : String) (identifierFromPurchaser : String) : String :=
  let escapedOutput := jsonEscape outputData
  let preImage := identifierFromPurchaser ++ ";" ++ escapedOutput
  sha256HexOfString preImage

/-! ## Payment manager (src/skills/masumi-payments/src/managers/payment.ts)

The manager keeps a map from blockchain identifier to payment entry and
emits events. Remote calls are modelled as explicit function parameters,
events as a returned list. JavaScript distinguishes a missing map entry
(`undefined`) from an entry whose `onChainState` is `null`; the model keeps
that distinction as `Option (Option PaymentState)`. -/

/-- The `PaymentState` union of types/payment.ts. -/
inductive PaymentState where
  | waitingForExternalAction
  | fundsLocked
  | submitResultRequested
  | authorizeRefundRequested
  | withdrawn
  | refundWithdrawn
  | disputed
  | fundsOrDatumInvalid
  | resultSubmitted
  | disputedWithdrawn
deriving DecidableEq, Repr

/-- The fields of a `PaymentRequest` record the manager reads or stores. -/
structure PaymentRequest where
  blockchainIdentifier : String
  identifierFromPurchaser : String
  inputHash : Option String
  onChainState : Option PaymentState
deriving DecidableEq, Repr

/-- The in-memory index `pendingPayments`, keyed by blockchain identifier. -/
def Index := List (String × PaymentRequest)

/-- Read an entry, as `pendingPayments.get(id)`. -/
def getEntry (idx : Index) (id : String) : Option PaymentRequest :=
  match idx with
  | [] => none
  | (k, v) :: rest => if k = id then some v else getEntry rest id

/-- Write an entry, as `pendingPayments.set(id, v)`: replace in place if the
key exists, append otherwise. -/
def setEntry (idx : Index) (id : String) (v : PaymentRequest) : Index :=
  match idx with
  | [] => [(id, v)]
  | (k, w) :: rest => if k = id then (id, v) :: rest else (k, w) :: setEntry rest id v

/-- Events the manager emits (the `payment:*` event names of payment.ts). -/
inductive ManagerEvent where
  | created (id : String)
  | stateChanged (id : String) (previousState newState : Option PaymentState)
  | fundsLocked (id : String)
  | resultSubmittedEvt (id : String) (resultHash : String)
  | completed (id : String)
  | refundAuthorized (id : String)
  | monitorError (id : String) (error : String)
deriving DecidableEq, Repr

/-- The payment id an event is about. -/
def eventRef : ManagerEvent → String
  | .created id => id
  | .stateChanged id _ _ => id
  | .fundsLocked id => id
  | .resultSubmittedEvt id _ => id
  | .completed id => id
  | .refundAuthorized id => id
  | .monitorError id _ => id

/-- Core of `checkPaymentStatus`, given the payment the settlement service
reported: store the reported record, and when the reported `onChainState`
differs from the previously stored one (strict JavaScript comparison, where
a missing entry compares unequal to everything) emit `payment:state_changed`
followed by `payment:funds_locked` on entry into FundsLocked or
`payment:completed` on entry into Withdrawn. -/
def checkPaymentStatusPure (idx : Index) (id : String) (payment : PaymentRequest) :
    Index × List ManagerEvent :=
  let previousState := (getEntry idx id).map PaymentRequest.onChainState
  let idx2 := setEntry idx id payment
  let events :=
    if previousState = some payment.onChainState then []
    else
      ManagerEvent.stateChanged id previousState.join payment.onChainState ::
        (if payment.onChainState = some PaymentState.fundsLocked then
          [ManagerEvent.fundsLocked id]
        else if payment.onChainState = some PaymentState.withdrawn then
          [ManagerEvent.completed id]
        else [])
  (idx2, events)

/-- The terminal states the monitoring loop skips (`completedStates`). -/
def completedStates : List PaymentState :=
  [PaymentState.withdrawn, PaymentState.refundWithdrawn, PaymentState.disputedWithdrawn]

/-- Whether an entry is skipped by the monitoring pass: a truthy
`onChainState` contained in `completedStates`. -/
def isTerminalEntry (p : PaymentRequest) : Bool :=
  match p.onChainState with
  | some s => completedStates.contains s
  | none => false

/-- One iteration of the monitoring loop for one tracked id: skip terminal
entries; otherwise resolve the remote state, feeding a successful response
through `checkPaymentStatusPure` and converting a failure into a
`payment:monitor_error` event without touching the index. -/
def monitorStep (resolve : String → Except String PaymentRequest)
    (acc : Index × List ManagerEvent) (id : String) : Index × List ManagerEvent :=
  match getEntry acc.1 id with
  | none => acc
  | some payment =>
    if isTerminalEntry payment then acc
    else
      match resolve id with
      | Except.error e => (acc.1, acc.2 ++ [ManagerEvent.monitorError id e])
      | Except.ok p =>
        let r := checkPaymentStatusPure acc.1 id p
        (r.1, acc.2 ++ r.2)

/-- One full monitoring pass of `startStatusMonitoring`: iterate over the
tracked ids, accumulating index updates and events. -/
def monitorPass (idx : Index) (resolve : String → Except String PaymentRequest) :
    Index × List ManagerEvent :=
  (idx.map Prod.fst).foldl (monitorStep resolve) (idx, [])

/-- The body the manager posts to `/payment/submit-result`. -/
structure SubmitResultBody where
  blockchainIdentifier : String
  network : String
  submitResultHash : String
deriving DecidableEq, Repr

/-- Embedding of `submitResult`: an untracked id raises before any request
is made and leaves the index unchanged; a tracked id has its output hashed
with the stored purchaser identifier, the hash submitted, the entry replaced
by the response and `payment:result_submitted` emitted. The returned list
records every request sent to the settlement service. -/
def submitResultM (network : String) (idx : Index)
    (remote : SubmitResultBody → Except String PaymentRequest)
    (id outputData : String) :
    Index × Except String (PaymentRequest × List ManagerEvent) × List SubmitResultBody :=
  match getEntry idx id with
  | none => (idx, Except.error ("Payment not found: " ++ id), [])
  | some existingPayment =>
    let resultHash := createMasumiOutputHash outputData existingPayment.identifierFromPurchaser
    let body : SubmitResultBody := ⟨id, network, resultHash⟩
    match remote body with
    | Except.error e => (idx, Except.error e, [body])
    | Except.ok updatedPayment =>
      (setEntry idx id updatedPayment,
       Except.ok (updatedPayment, [ManagerEvent.resultSubmittedEvt id resultHash]),
       [body])

/-! ## Retry client (src/skills/masumi-payments/src/utils/api-client.ts)

`withRetry` loops `attempt` from 0 to `maxRetries - 1`: a 4xx `ApiError` is
rethrown at once, the last attempt rethrows the error, and otherwise the
loop sleeps `initialDelayMs * 2 ^ attempt` before the next attempt. The
model indexes the wrapped call by attempt number and records how many
attempts ran and how long the loop slept in total. -/

/-- Errors the retry loop distinguishes: an `ApiError` carrying an HTTP
status code, or any other thrown error. -/
inductive JsError where
  | apiError (statusCode : Nat) (message : String)
  | otherError (message : String)
deriving DecidableEq, Repr

/-- The client-error test of withRetry: an `ApiError` with a 4xx status. -/
def isClientError : JsError → Bool
  | .apiError status _ => 400 ≤ status && status < 500
  | .otherError _ => false

/-- Observable outcome of a `withRetry` run: the value returned or error
thrown, the number of attempts performed, and the summed sleep time. -/
structure RetryOutcome (α : Type) where
  result : Except JsError α
  attempts : Nat
  totalDelayMs : Nat

/-- The retry loop from a given attempt index. -/
def retryGo (fn : Nat → Except JsError α) (maxRetries initialDelayMs attempt : Nat) :
    RetryOutcome α :=
  if h : attempt < maxRetries then
    match fn attempt with
    | Except.ok v => ⟨Except.ok v, 1, 0⟩
    | Except.error e =>
      if isClientError e then ⟨Except.error e, 1, 0⟩
      else if attempt = maxRetries - 1 then ⟨Except.error e, 1, 0⟩
      else
        let rest := retryGo fn maxRetries initialDelayMs (attempt + 1)
        ⟨rest.result, rest.attempts + 1, initialDelayMs * 2 ^ attempt + rest.totalDelayMs⟩
  else ⟨Except.error (JsError.otherError "Max retries exceeded"), 0, 0⟩
termination_by maxRetries - attempt
decreasing_by omega

/-- Embedding of `withRetry`, starting at attempt 0. -/
def withRetry (fn : Nat → Except JsError α) (maxRetries initialDelayMs : Nat) :
    RetryOutcome α :=
  retryGo fn maxRetries initialDelayMs 0

/-! ## Base64

The vault stores its blob base64-encoded (`Buffer.toString('base64')` after
`Buffer.concat`, decoded again by `Buffer.from(data, 'base64')`). -/

/-- The base64 alphabet: the uppercase letters, the lowercase letters, the
ten digits, then plus and slash. -/
def b64Alphabet : List Char :=
  (List.range 26).map (fun i => Char.ofNat (65 + i)) ++
    (List.range 26).map (fun i => Char.ofNat (97 + i)) ++
    (List.range 10).map (fun i => Char.ofNat (48 + i)) ++ ['+', '/']

/-- Character of one six-bit group. -/
def b64Char (n : Nat) : Char := b64Alphabet.getD n 'A'

/-- Index of a character in the base64 alphabet (0 when absent). -/
def b64IndexAux (cs : List Char) (c : Char) (acc : Nat) : Nat :=
  match cs with
  | [] => 0
  | d :: rest => if d = c then acc else b64IndexAux rest c (acc + 1)

/-- Six-bit value of a base64 character. -/
def b64Index (c : Char) : Nat := b64IndexAux b64Alphabet c 0

/-- Base64 encoding of a byte list, three bytes to four characters, with
trailing padding. -/
def b64encode : List Nat → List Char
  | a :: b :: c :: rest =>
    b64Char (a / 4) :: b64Char (a % 4 * 16 + b / 16) ::
      b64Char (b % 16 * 4 + c / 64) :: b64Char (c % 64) :: b64encode rest
  | [a, b] => [b64Char (a / 4), b64Char (a % 4 * 16 + b / 16), b64Char (b % 16 * 4), '=']
  | [a] => [b64Char (a / 4), b64Char (a % 4 * 16), '=', '=']
  | [] => []

/-- Base64 decoding, four characters to three bytes, honouring padding. -/
def b64decode : List Char → List Nat
  | c1 :: c2 :: c3 :: c4 :: rest =>
    let s1 := b64Index c1
    let s2 := b64Index c2
    if c3 = '=' then [s1 * 4 + s2 / 16]
    else
      let s3 := b64Index c3
      if c4 = '=' then [s1 * 4 + s2 / 16, s2 % 16 * 16 + s3 / 4]
      else (s1 * 4 + s2 / 16) :: (s2 % 16 * 16 + s3 / 4) ::
        (s3 % 4 * 64 + b64Index c4) :: b64decode rest
  | _ => []

/-! ## Secret vault (src/skills/masumi-payments/src/utils/encryption.ts)

The cipher (`aes-256-gcm` from node:crypto) and the key derivation
(`scryptSync`) are external library primitives, taken as parameters: an
abstract authenticated cipher together with the properties encryption.ts
relies on, and an arbitrary key-derivation function. What the module itself
contributes — key selection, blob layout `salt(32) + iv(16) + tag(16) +
ciphertext` and its slicing on decryption — is embedded exactly. -/

/-- An authenticated cipher: `enc key iv plaintext` yields ciphertext and
authentication tag, `dec key iv tag ciphertext` yields the plaintext or
fails authentication. -/
structure AeadCipher where
  enc : List Nat → List Nat → String → List Nat × List Nat
  dec : List Nat → List Nat → List Nat → List Nat → Option String

/-- Decryption undoes encryption under matching key, iv and tag. -/
def AeadCorrect (c : AeadCipher) : Prop :=
  ∀ key iv pt, c.dec key iv (c.enc key iv pt).2 (c.enc key iv pt).1 = some pt

/-- The cipher emits a 16-byte tag and byte-valued output, as aes-256-gcm
does. -/
def AeadWellFormed (c : AeadCipher) : Prop :=
  ∀ key iv pt, (c.enc key iv pt).2.length = 16 ∧
    (∀ b ∈ (c.enc key iv pt).1, b < 256) ∧ (∀ b ∈ (c.enc key iv pt).2, b < 256)

/-- The hard-coded fallback password of getEncryptionKey. -/
def defaultEncryptionKey : String := "default-encryption-key-change-me-in-production"

/-- Embedding of `getEncryptionKey`: the `MASUMI_ENCRYPTION_KEY` environment
variable when set and truthy (a set but empty variable is falsy in
JavaScript), else the insecure built-in default — a warning is printed but
no error is raised. -/
def getEncryptionKey (env : Option String) : String :=
  match env with
  | some k => if k = "" then defaultEncryptionKey else k
  | none => defaultEncryptionKey

/-- Embedding of `encrypt`: derive the key from the selected password and a
fresh salt, encrypt, and emit base64 of `salt + iv + tag + ciphertext`. The
random salt and iv are passed in explicitly. -/
def encrypt (c : AeadCipher) (kdf : String → List Nat → List Nat) (env : Option String)
    (salt iv : List Nat) (plaintext : String) : String :=
  let password := getEncryptionKey env
  let key := kdf password salt
  let encrypted := (c.enc key iv plaintext).1
  let tag := (c.enc key iv plaintext).2
  String.mk (b64encode (salt ++ iv ++ tag ++ encrypted))

/-- Embedding of `decrypt`: decode the base64 blob, slice salt, iv and tag
at offsets 32, 48 and 64, re-derive the key, and authenticate-decrypt
(authentication failure is `none`). -/
def decrypt (c : AeadCipher) (kdf : String → List Nat → List Nat) (env : Option String)
    (encryptedData : String) : Option String :=
  let password := getEncryptionKey env
  let combined := b64decode encryptedData.data
  let salt := combined.take 32
  let iv := (combined.drop 32).take 16
  let tag := (combined.drop 48).take 16
  let encrypted := combined.drop 64
  let key := kdf password salt
  c.dec key iv tag encrypted

/-! ## Credential store (the vault file, `saveCredentials` and friends)

The JSON document written to disk is modelled field for field; the
`mnemonic` field is `some` exactly when the serialized object carries a
plaintext `mnemonic` member. `loadCredentials` returns the stored record
spread together with the decrypted mnemonic, and `updateCredentials`
spreads that loaded record — including its plaintext `mnemonic` member —
into the object it writes back. -/

/-- The JSON document of one credential file. -/
structure CredFile where
  agentIdentifier : String
  network : String
  walletAddress : String
  walletVkey : String
  encryptedMnemonic : String
  apiKey : Option String
  registryUrl : Option String
  createdAt : String
  updatedAt : String
  mnemonic : Option String
deriving DecidableEq, Repr

/-- Caller-supplied credentials handed to `saveCredentials`. -/
structure CredInput where
  agentIdentifier : String
  network : String
  walletAddress : String
  walletVkey : String
  mnemonic : String
  apiKey : Option String
  registryUrl : Option String

/-- Embedding of `saveCredentials`: the stored object has the encrypted
mnemonic and no plaintext `mnemonic` member. -/
def saveCredentials (c : AeadCipher) (kdf : String → List Nat → List Nat)
    (env : Option String) (salt iv : List Nat) (input : CredInput) (now : String) : CredFile :=
  { agentIdentifier := input.agentIdentifier
    network := input.network
    walletAddress := input.walletAddress
    walletVkey := input.walletVkey
    encryptedMnemonic := encrypt c kdf env salt iv input.mnemonic
    apiKey := input.apiKey
    registryUrl := input.registryUrl
    createdAt := now
    updatedAt := now
    mnemonic := none }

/-- Embedding of `loadCredentials` on a file already read: the parsed record
spread together with the decrypted plaintext mnemonic. -/
def loadCredentials (c : AeadCipher) (kdf : String → List Nat → List Nat)
    (env : Option String) (file : CredFile) : Option CredFile :=
  (decrypt c kdf env file.encryptedMnemonic).map
    (fun m => { file with mnemonic := some m })

/-- The `updates` object of `updateCredentials`: `some` marks a member the
caller supplied. -/
structure CredUpdates where
  apiKey : Option String
  registryUrl : Option String

/-- Embedding of `updateCredentials`: load (which attaches the plaintext
mnemonic), spread the updates over the loaded record, stamp `updatedAt`,
and write the result back to the file. -/
def updateCredentials (c : AeadCipher) (kdf : String → List Nat → List Nat)
    (env : Option String) (file : CredFile) (updates : CredUpdates) (now : String) :
    Option CredFile :=
  (loadCredentials c kdf env file).map
    (fun creds =>
      { creds with
        apiKey := match updates.apiKey with
          | some v => some v
          | none => creds.apiKey
        registryUrl := match updates.registryUrl with
          | some v => some v
          | none => creds.registryUrl
        updatedAt := now })

/-! ## Concrete cipher instance

A toy authenticated cipher used only to instantiate witnesses: the
ciphertext spells the plaintext code points in four bytes each, the tag is
sixteen zero bytes. -/

/-- Four-byte big-endian rendering of one code point. -/
def chr4 (t : Nat) : List Nat :=
  [t / 16777216 % 256, t / 65536 % 256, t / 256 % 256, t % 256]

/-- Toy ciphertext of a string. -/
def toyEncBytes (s : String) : List Nat := s.data.flatMap (fun ch => chr4 ch.toNat)

/-- Toy decryption back to characters. -/
def toyDecBytes : List Nat → List Char
  | a :: b :: c :: d :: rest =>
    Char.ofNat (a * 16777216 + b * 65536 + c * 256 + d) :: toyDecBytes rest
  | _ => []

/-- The toy cipher. -/
def toyAead : AeadCipher where
  enc := fun _ _ pt => (toyEncBytes pt, List.replicate 16 0)
  dec := fun _ _ tag ct =>
    if tag = List.replicate 16 0 then some (String.mk (toyDecBytes ct)) else none

/-- A trivial key derivation standing in for scrypt in witnesses. -/
def toyKdf : String → List Nat → List Nat := fun _ _ => List.replicate 32 0

/-- A three-entry index exercising one monitoring pass. -/
def monIdx : Index :=
  [("t", ⟨"t", "b1", none, some PaymentState.withdrawn⟩),
   ("f", ⟨"f", "b2", none, some PaymentState.fundsLocked⟩),
   ("g", ⟨"g", "b3", none, none⟩)]

/-- A resolver that fails for entry `f` and reports FundsLocked otherwise. -/
def monResolve : String → Except String PaymentRequest := fun id =>
  if id = "f" then Except.error "boom"
  else Except.ok ⟨"g", "b3", none, some PaymentState.fundsLocked⟩

/-! ## Helper lemmas -/

theorem getEntry_setEntry_self (idx : Index) (id : String) (v : PaymentRequest) :
    getEntry (setEntry idx id v) id = some v := by
  induction idx with
  | nil => simp [setEntry, getEntry]
  | cons hd tl ih =>
    obtain ⟨k, w⟩ := hd
    by_cases h : k = id
    · simp [setEntry, getEntry, h]
    · simp [setEntry, getEntry, h, ih]

theorem getEntry_setEntry_ne (idx : Index) (id id2 : String) (v : PaymentRequest)
    (h : id2 ≠ id) : getEntry (setEntry idx id v) id2 = getEntry idx id2 := by
  have h' : ¬(id = id2) := fun hh => h hh.symm
  induction idx with
  | nil => simp [setEntry, getEntry, h']
  | cons hd tl ih =>
    obtain ⟨k, w⟩ := hd
    by_cases hk : k = id
    · subst hk
      simp [setEntry, getEntry, h']
    · simp [setEntry, getEntry, hk, ih]

theorem getEntry_some_mem (idx : Index) (id : String) (p : PaymentRequest)
    (h : getEntry idx id = some p) : id ∈ idx.map Prod.fst := by
  induction idx with
  | nil => simp [getEntry] at h
  | cons hd tl ih =>
    obtain ⟨k, w⟩ := hd
    by_cases hk : k = id
    · simp [hk]
    · simp only [getEntry, if_neg hk] at h
      simp [ih h]

theorem sha256Block_length (hs block : List Nat) : (sha256Block hs block).length = 8 := rfl

theorem foldl_sha256Block_length (bs : List (List Nat)) (hs : List Nat)
    (h : hs.length = 8) : (bs.foldl sha256Block hs).length = 8 := by
  induction bs generalizing hs with
  | nil => exact h
  | cons b tl ih => exact ih _ (sha256Block_length hs b)

theorem sha256Words_length (msg : List Nat) : (sha256Words msg).length = 8 :=
  foldl_sha256Block_length _ _ rfl

theorem flatMap_wordHexChars_length (ws : List Nat) :
    (ws.flatMap wordHexChars).length = 8 * ws.length := by
  induction ws with
  | nil => rfl
  | cons w tl ih =>
    simp only [List.flatMap_cons, List.length_append, ih, List.length_cons]
    show 8 + 8 * tl.length = 8 * (tl.length + 1)
    ring

theorem sha256Hex_length (s : String) : (sha256HexOfString s).length = 64 := by
  unfold sha256HexOfString
  rw [String.length_mk, flatMap_wordHexChars_length, sha256Words_length]

theorem hexChar_mem_of_lt (n : Nat) (h : n < 16) : hexChar n ∈ hexDigits := by
  have hall : ∀ i : Fin 16, hexChar i.val ∈ hexDigits := by decide
  exact hall ⟨n, h⟩

theorem sha256Hex_chars (s : String) :
    ∀ ch ∈ (sha256HexOfString s).data, ch ∈ hexDigits := by
  intro ch hch
  unfold sha256HexOfString at hch
  rw [show (String.mk ((sha256Words (utf8Bytes s)).flatMap wordHexChars)).data =
      (sha256Words (utf8Bytes s)).flatMap wordHexChars from rfl, List.mem_flatMap] at hch
  obtain ⟨w, _, hw⟩ := hch
  simp only [wordHexChars, List.mem_cons, List.not_mem_nil, or_false] at hw
  rcases hw with h | h | h | h | h | h | h | h <;>
    (subst h; exact hexChar_mem_of_lt _ (Nat.mod_lt _ (by norm_num)))

theorem escChar_eq_self (ch : Char) (h1 : ch ≠ '"') (h2 : ch ≠ '\\')
    (h3 : 32 ≤ ch.toNat) : escChar ch = [ch] := by
  unfold escChar
  rw [if_neg h1, if_neg h2, if_neg (by omega), if_neg (by omega), if_neg (by omega),
    if_neg (by omega), if_neg (by omega), if_neg (by omega)]

theorem jsonEscape_eq_self (s : String)
    (h : ∀ ch ∈ s.data, ch ≠ '"' ∧ ch ≠ '\\' ∧ 32 ≤ ch.toNat) : jsonEscape s = s := by
  have key : ∀ (l : List Char), (∀ ch ∈ l, ch ≠ '"' ∧ ch ≠ '\\' ∧ 32 ≤ ch.toNat) →
      l.flatMap escChar = l := by
    intro l hl
    induction l with
    | nil => rfl
    | cons c tl ih =>
      obtain ⟨hc1, hc2, hc3⟩ := hl c (by simp)
      simp only [List.flatMap_cons, escChar_eq_self c hc1 hc2 hc3,
        ih (fun ch hch => hl ch (by simp [hch])), List.singleton_append]
  unfold jsonEscape
  rw [key s.data h]

theorem b64Index_b64Char (n : Nat) (h : n < 64) : b64Index (b64Char n) = n := by
  have hall : ∀ i : Fin 64, b64Index (b64Char i.val) = i.val := by decide
  exact hall ⟨n, h⟩

theorem b64Char_ne_pad (n : Nat) (h : n < 64) : b64Char n ≠ '=' := by
  have hall : ∀ i : Fin 64, b64Char i.val ≠ '=' := by decide
  exact hall ⟨n, h⟩

theorem b64_roundtrip : ∀ (l : List Nat), (∀ b ∈ l, b < 256) →
    b64decode (b64encode l) = l
  | [] => fun _ => rfl
  | [a] => fun h => by
    have ha : a < 256 := h a (by simp)
    have h1 : a / 4 < 64 := by omega
    have h2 : a % 4 * 16 < 64 := by omega
    simp only [b64encode, b64decode]
    rw [if_pos trivial, b64Index_b64Char _ h1, b64Index_b64Char _ h2]
    have e1 : a / 4 * 4 + a % 4 * 16 / 16 = a := by omega
    rw [e1]
  | [a, b] => fun h => by
    have ha : a < 256 := h a (by simp)
    have hb : b < 256 := h b (by simp)
    have h1 : a / 4 < 64 := by omega
    have h2 : a % 4 * 16 + b / 16 < 64 := by omega
    have h3 : b % 16 * 4 < 64 := by omega
    simp only [b64encode, b64decode]
    rw [if_neg (b64Char_ne_pad _ h3), if_pos trivial, b64Index_b64Char _ h1,
      b64Index_b64Char _ h2, b64Index_b64Char _ h3]
    have e1 : (a / 4) * 4 + (a % 4 * 16 + b / 16) / 16 = a := by omega
    have e2 : (a % 4 * 16 + b / 16) % 16 * 16 + b % 16 * 4 / 4 = b := by omega
    rw [e1, e2]
  | a :: b :: c :: rest => fun h => by
    have ha : a < 256 := h a (by simp)
    have hb : b < 256 := h b (by simp)
    have hc : c < 256 := h c (by simp)
    have h1 : a / 4 < 64 := by omega
    have h2 : a % 4 * 16 + b / 16 < 64 := by omega
    have h3 : b % 16 * 4 + c / 64 < 64 := by omega
    have h4 : c % 64 < 64 := by omega
    have hrest : ∀ x ∈ rest, x < 256 := fun x hx => h x (by simp [hx])
    simp only [b64encode, b64decode]
    rw [if_neg (b64Char_ne_pad _ h3), if_neg (b64Char_ne_pad _ h4),
      b64Index_b64Char _ h1, b64Index_b64Char _ h2, b64Index_b64Char _ h3,
      b64Index_b64Char _ h4]
    have e1 : (a / 4) * 4 + (a % 4 * 16 + b / 16) / 16 = a := by omega
    have e2 : (a % 4 * 16 + b / 16) % 16 * 16 + (b % 16 * 4 + c / 64) / 4 = b := by omega
    have e3 : (b % 16 * 4 + c / 64) % 4 * 64 + c % 64 = c := by omega
    rw [e1, e2, e3, b64_roundtrip rest hrest]

theorem checkStatus_idx (idx : Index) (id : String) (p : PaymentRequest) :
    (checkPaymentStatusPure idx id p).1 = setEntry idx id p := rfl

theorem checkStatus_events_ref (idx : Index) (id : String) (p : PaymentRequest) :
    ∀ e ∈ (checkPaymentStatusPure idx id p).2, eventRef e = id := by
  intro e he
  by_cases hc : (getEntry idx id).map PaymentRequest.onChainState = some p.onChainState
  · simp [checkPaymentStatusPure, hc] at he
  · simp only [checkPaymentStatusPure, if_neg hc, List.mem_cons] at he
    rcases he with rfl | he
    · rfl
    · by_cases h1 : p.onChainState = some PaymentState.fundsLocked
      · simp only [if_pos h1, List.mem_singleton] at he
        subst he
        rfl
      · by_cases h2 : p.onChainState = some PaymentState.withdrawn
        · simp only [if_neg h1, if_pos h2, List.mem_singleton] at he
          subst he
          rfl
        · simp [h1, h2] at he

theorem monitorStep_frame (r : String → Except String PaymentRequest)
    (acc : Index × List ManagerEvent) (id id2 : String) (h : id2 ≠ id) :
    getEntry (monitorStep r acc id).1 id2 = getEntry acc.1 id2 := by
  unfold monitorStep
  cases hga : getEntry acc.1 id with
  | none => rfl
  | some p =>
    by_cases ht : isTerminalEntry p = true
    · simp [ht]
    · cases hr : r id with
      | error e => simp [ht]
      | ok q => simp [ht, checkStatus_idx, getEntry_setEntry_ne _ _ _ _ h]

theorem monitorStep_events (r : String → Except String PaymentRequest)
    (acc : Index × List ManagerEvent) (id : String) :
    ∃ tail, (monitorStep r acc id).2 = acc.2 ++ tail ∧ ∀ e ∈ tail, eventRef e = id := by
  unfold monitorStep
  cases hga : getEntry acc.1 id with
  | none => exact ⟨[], by simp, by simp⟩
  | some p =>
    by_cases ht : isTerminalEntry p = true
    · exact ⟨[], by simp [ht], by simp⟩
    · cases hr : r id with
      | error e =>
        exact ⟨[ManagerEvent.monitorError id e], by simp [ht], by simp [eventRef]⟩
      | ok q =>
        exact ⟨(checkPaymentStatusPure acc.1 id q).2, by simp [ht],
          checkStatus_events_ref _ _ _⟩

theorem foldMonitor_frame (r : String → Except String PaymentRequest) :
    ∀ (L : List String) (acc : Index × List ManagerEvent) (id : String), id ∉ L →
      getEntry (L.foldl (monitorStep r) acc).1 id = getEntry acc.1 id := by
  intro L
  induction L with
  | nil => intro acc id _; rfl
  | cons hd tl ih =>
    intro acc id hid
    have h1 : id ≠ hd := fun hh => hid (by simp [hh])
    have h2 : id ∉ tl := fun hh => hid (by simp [hh])
    rw [List.foldl_cons, ih _ id h2, monitorStep_frame r acc hd id h1]

theorem foldMonitor_events (r : String → Except String PaymentRequest) :
    ∀ (L : List String) (acc : Index × List ManagerEvent),
      ∀ e ∈ (L.foldl (monitorStep r) acc).2, e ∈ acc.2 ∨ eventRef e ∈ L := by
  intro L
  induction L with
  | nil => intro acc e he; exact Or.inl he
  | cons hd tl ih =>
    intro acc e he
    rw [List.foldl_cons] at he
    rcases ih _ e he with hin | hin
    · obtain ⟨tail, heq, href⟩ := monitorStep_events r acc hd
      rw [heq] at hin
      rcases List.mem_append.mp hin with h | h
      · exact Or.inl h
      · exact Or.inr (by simp [href e h])
    · exact Or.inr (by simp [hin])

theorem foldMonitor_events_mono (r : String → Except String PaymentRequest) :
    ∀ (L : List String) (acc : Index × List ManagerEvent),
      ∀ e ∈ acc.2, e ∈ (L.foldl (monitorStep r) acc).2 := by
  intro L
  induction L with
  | nil => intro acc e he; exact he
  | cons hd tl ih =>
    intro acc e he
    rw [List.foldl_cons]
    apply ih
    obtain ⟨tail, heq, _⟩ := monitorStep_events r acc hd
    rw [heq]
    exact List.mem_append.mpr (Or.inl he)

theorem foldMonitor_mem (r : String → Except String PaymentRequest) :
    ∀ (L : List String) (acc : Index × List ManagerEvent) (id : String)
      (p : PaymentRequest), L.Nodup → id ∈ L → getEntry acc.1 id = some p →
      ((isTerminalEntry p = true →
          getEntry (L.foldl (monitorStep r) acc).1 id = some p ∧
          ∀ e ∈ (L.foldl (monitorStep r) acc).2, e ∈ acc.2 ∨ eventRef e ≠ id) ∧
       (∀ err, isTerminalEntry p = false → r id = Except.error err →
          ManagerEvent.monitorError id err ∈ (L.foldl (monitorStep r) acc).2 ∧
          getEntry (L.foldl (monitorStep r) acc).1 id = some p) ∧
       (∀ q, isTerminalEntry p = false → r id = Except.ok q →
          getEntry (L.foldl (monitorStep r) acc).1 id = some q)) := by
  intro L
  induction L with
  | nil => intro acc id p _ hmem; exact absurd hmem (by simp)
  | cons hd tl ih =>
    intro acc id p hnd hmem hga
    have hndtl : tl.Nodup := (List.nodup_cons.mp hnd).2
    have hhdtl : hd ∉ tl := (List.nodup_cons.mp hnd).1
    by_cases hid : id = hd
    · subst hid
      refine ⟨?_, ?_, ?_⟩
      · intro hterm
        have hstep : monitorStep r acc id = acc := by
          unfold monitorStep
          rw [hga]
          simp [hterm]
        rw [List.foldl_cons, hstep]
        refine ⟨?_, ?_⟩
        · rw [foldMonitor_frame r tl acc id hhdtl]
          exact hga
        · intro e he
          rcases foldMonitor_events r tl acc e he with h | h
          · exact Or.inl h
          · exact Or.inr (fun href => hhdtl (href ▸ h))
      · intro err hterm herr
        have hstep : monitorStep r acc id =
            (acc.1, acc.2 ++ [ManagerEvent.monitorError id err]) := by
          unfold monitorStep
          rw [hga]
          simp [hterm, herr]
        rw [List.foldl_cons, hstep]
        refine ⟨?_, ?_⟩
        · apply foldMonitor_events_mono
          simp
        · rw [foldMonitor_frame r tl _ id hhdtl]
          exact hga
      · intro q hterm hok
        have hstep : monitorStep r acc id =
            ((checkPaymentStatusPure acc.1 id q).1,
             acc.2 ++ (checkPaymentStatusPure acc.1 id q).2) := by
          unfold monitorStep
          rw [hga]
          simp [hterm, hok]
        rw [List.foldl_cons, hstep, foldMonitor_frame r tl _ id hhdtl]
        show getEntry (checkPaymentStatusPure acc.1 id q).1 id = some q
        rw [checkStatus_idx, getEntry_setEntry_self]
    · have hmem2 : id ∈ tl := by
        rcases List.mem_cons.mp hmem with h | h
        · exact absurd h hid
        · exact h
      have hga2 : getEntry (monitorStep r acc hd).1 id = some p := by
        rw [monitorStep_frame r acc hd id hid]
        exact hga
      have IH := ih (monitorStep r acc hd) id p hndtl hmem2 hga2
      rw [List.foldl_cons]
      refine ⟨?_, IH.2.1, IH.2.2⟩
      intro hterm
      obtain ⟨hidx, hev⟩ := IH.1 hterm
      refine ⟨hidx, ?_⟩
      intro e he
      rcases hev e he with h | h
      · obtain ⟨tail, heq, href⟩ := monitorStep_events r acc hd
        rw [heq] at h
        rcases List.mem_append.mp h with h2 | h2
        · exact Or.inl h2
        · refine Or.inr ?_
          intro hh
          exact hid (hh.symm.trans (href e h2))
      · exact Or.inr h

theorem toyDec_toyEnc (s : String) : toyDecBytes (toyEncBytes s) = s.data := by
  have key : ∀ l : List Char,
      toyDecBytes (l.flatMap fun ch => chr4 ch.toNat) = l := by
    intro l
    induction l with
    | nil => rfl
    | cons c tl ih =>
      have hc : c.toNat < 1114112 := by
        rcases c.valid with h | ⟨h1, h2⟩
        · exact Nat.lt_trans h (by norm_num)
        · exact h2
      show Char.ofNat (c.toNat / 16777216 % 256 * 16777216 + c.toNat / 65536 % 256 * 65536 +
          c.toNat / 256 % 256 * 256 + c.toNat % 256) ::
        toyDecBytes (tl.flatMap fun ch => chr4 ch.toNat) = c :: tl
      have e : c.toNat / 16777216 % 256 * 16777216 + c.toNat / 65536 % 256 * 65536 +
          c.toNat / 256 % 256 * 256 + c.toNat % 256 = c.toNat := by omega
      rw [e, Char.ofNat_toNat, ih]
  exact key s.data

theorem toyAead_correct : AeadCorrect toyAead := by
  intro key iv pt
  show (if List.replicate 16 0 = List.replicate 16 0 then
    some (String.mk (toyDecBytes (toyEncBytes pt))) else none) = some pt
  rw [if_pos rfl, toyDec_toyEnc]

theorem toyAead_wf : AeadWellFormed toyAead := by
  intro key iv pt
  refine ⟨by simp [toyAead], ?_, ?_⟩
  · intro b hb
    simp only [toyAead, toyEncBytes] at hb
    rcases List.mem_flatMap.mp hb with ⟨ch, _, hm⟩
    simp only [chr4, List.mem_cons, List.not_mem_nil, or_false] at hm
    rcases hm with h | h | h | h <;> subst h <;> omega
  · intro b hb
    simp only [toyAead] at hb
    have := List.eq_of_mem_replicate hb
    omega

theorem decrypt_def (c : AeadCipher) (kdf : String → List Nat → List Nat)
    (env : Option String) (data : String) :
    decrypt c kdf env data =
      c.dec (kdf (getEncryptionKey env) ((b64decode data.data).take 32))
        (((b64decode data.data).drop 32).take 16)
        (((b64decode data.data).drop 48).take 16)
        ((b64decode data.data).drop 64) := rfl

theorem vault_roundtrip (c : AeadCipher) (kdf : String → List Nat → List Nat)
    (env : Option String) (salt iv : List Nat) (s : String)
    (hc : AeadCorrect c) (hw : AeadWellFormed c)
    (hsl : salt.length = 32) (hsb : ∀ b ∈ salt, b < 256)
    (hil : iv.length = 16) (hib : ∀ b ∈ iv, b < 256) :
    decrypt c kdf env (encrypt c kdf env salt iv s) = some s := by
  obtain ⟨htl, hcb, htb⟩ := hw (kdf (getEncryptionKey env) salt) iv s
  have hall : ∀ b ∈ salt ++ iv ++ (c.enc (kdf (getEncryptionKey env) salt) iv s).2 ++
      (c.enc (kdf (getEncryptionKey env) salt) iv s).1, b < 256 := by
    intro b hb
    simp only [List.append_assoc, List.mem_append] at hb
    rcases hb with h | h | h | h
    · exact hsb b h
    · exact hib b h
    · exact htb b h
    · exact hcb b h
  have hcomb : b64decode (encrypt c kdf env salt iv s).data =
      salt ++ iv ++ (c.enc (kdf (getEncryptionKey env) salt) iv s).2 ++
        (c.enc (kdf (getEncryptionKey env) salt) iv s).1 :=
    b64_roundtrip _ hall
  have e1 : (salt ++ iv ++ (c.enc (kdf (getEncryptionKey env) salt) iv s).2 ++
      (c.enc (kdf (getEncryptionKey env) salt) iv s).1).take 32 = salt := by
    rw [List.append_assoc, List.append_assoc]
    exact List.take_left' hsl
  have e2 : ((salt ++ iv ++ (c.enc (kdf (getEncryptionKey env) salt) iv s).2 ++
      (c.enc (kdf (getEncryptionKey env) salt) iv s).1).drop 32).take 16 = iv := by
    rw [List.append_assoc, List.append_assoc, List.drop_left' hsl]
    exact List.take_left' hil
  have e3 : ((salt ++ iv ++ (c.enc (kdf (getEncryptionKey env) salt) iv s).2 ++
      (c.enc (kdf (getEncryptionKey env) salt) iv s).1).drop 48).take 16 =
      (c.enc (kdf (getEncryptionKey env) salt) iv s).2 := by
    rw [show salt ++ iv ++ (c.enc (kdf (getEncryptionKey env) salt) iv s).2 ++
        (c.enc (kdf (getEncryptionKey env) salt) iv s).1 =
        (salt ++ iv) ++ ((c.enc (kdf (getEncryptionKey env) salt) iv s).2 ++
          (c.enc (kdf (getEncryptionKey env) salt) iv s).1) by
      simp [List.append_assoc]]
    rw [List.drop_left' (by simp [hsl, hil])]
    exact List.take_left' htl
  have e4 : (salt ++ iv ++ (c.enc (kdf (getEncryptionKey env) salt) iv s).2 ++
      (c.enc (kdf (getEncryptionKey env) salt) iv s).1).drop 64 =
      (c.enc (kdf (getEncryptionKey env) salt) iv s).1 := by
    exact List.drop_left' (by simp [hsl, hil, htl])
  rw [decrypt_def, hcomb, e1, e2, e3, e4]
  exact hc _ iv s

theorem retryGo_allFail (fn : Nat → Except JsError α) (maxRetries initialDelayMs : Nat)
    (statusOf : Nat → Nat) (msgOf : Nat → String)
    (hfail : ∀ i, fn i = Except.error (JsError.apiError (statusOf i) (msgOf i)))
    (h5xx : ∀ i, 500 ≤ statusOf i) :
    ∀ (d a : Nat), a + d + 1 = maxRetries →
      retryGo fn maxRetries initialDelayMs a =
        ⟨Except.error (JsError.apiError (statusOf (maxRetries - 1)) (msgOf (maxRetries - 1))),
         d + 1,
         initialDelayMs * (((List.range' a d).map (fun i => 2 ^ i)).sum)⟩ := by
  intro d
  induction d with
  | zero =>
    intro a ha
    have hcl : isClientError (JsError.apiError (statusOf a) (msgOf a)) = false := by
      have := h5xx a
      simp only [isClientError, Bool.and_eq_false_iff, decide_eq_false_iff_not]
      omega
    have hlast : a = maxRetries - 1 := by omega
    rw [retryGo]
    rw [dif_pos (by omega : a < maxRetries), hfail a]
    simp only [hcl, Bool.false_eq_true, if_false, if_pos hlast, hlast]
    simp
  | succ d ih =>
    intro a ha
    have hcl : isClientError (JsError.apiError (statusOf a) (msgOf a)) = false := by
      have := h5xx a
      simp only [isClientError, Bool.and_eq_false_iff, decide_eq_false_iff_not]
      omega
    have hnotlast : ¬(a = maxRetries - 1) := by omega
    rw [retryGo]
    rw [dif_pos (by omega : a < maxRetries), hfail a]
    simp only [hcl, Bool.false_eq_true, if_false, if_neg hnotlast]
    rw [ih (a + 1) (by omega)]
    have hrange : List.range' a (d + 1) = a :: List.range' (a + 1) d := rfl
    rw [hrange]
    simp only [List.map_cons, List.sum_cons]
    rw [Nat.mul_add]

theorem inputHash_length (p : Json) (id : String) :
    (createMasumiInputHash p id).length = 64 := sha256Hex_length _

theorem outputHash_length (out id : String) :
    (createMasumiOutputHash out id).length = 64 := sha256Hex_length _

/-! ## Claim theorems -/

/-- Claim C4: for every purchaser identifier and structured payload, the
input hash is the lowercase-hex SHA-256 of `id + ";" + canonicalJson`, the
canonical form has sorted members and no whitespace, and on the scenario
input the pre-image is the 19-character string `buyer-123;{"q":"x"}`. -/
theorem inputHash_canonical_preimage :
    (∀ (p : Json) (id : String),
       createMasumiInputHash p id = sha256HexOfString (id ++ ";" ++ canonJson p) ∧
       (createMasumiInputHash p id).length = 64 ∧
       ∀ ch ∈ (createMasumiInputHash p id).data, ch ∈ hexDigits) ∧
    canonJson (Json.obj [("q", Json.str "x")]) = "\x7b\"q\":\"x\"\x7d" ∧
    ("buyer-123;\x7b\"q\":\"x\"\x7d" : String).length = 19 ∧
    createMasumiInputHash (Json.obj [("q", Json.str "x")]) "buyer-123" =
      sha256HexOfString "buyer-123;\x7b\"q\":\"x\"\x7d" ∧
    canonJson (Json.obj [("b", Json.num 1), ("a", Json.num 2)]) =
      "\x7b\"a\":2,\"b\":1\x7d" := by
  refine ⟨fun p id => ⟨rfl, inputHash_length p id, sha256Hex_chars _⟩, ?_, ?_, ?_, ?_⟩
  · rfl
  · rfl
  · rfl
  · rfl

/-- Claim C4 witness: the scenario digest evaluated concretely — pre-image
equation, 64-character length, and the leading digest character landing in
the lowercase hex alphabet. -/
theorem inputHash_canonical_preimage_witness :
    createMasumiInputHash (Json.obj [("q", Json.str "x")]) "buyer-123" =
      sha256HexOfString ("buyer-123" ++ ";" ++ canonJson (Json.obj [("q", Json.str "x")])) ∧
    (createMasumiInputHash (Json.obj [("q", Json.str "x")]) "buyer-123").length = 64 ∧
    '0' ∈ hexDigits :=
  ⟨(inputHash_canonical_preimage.1 (Json.obj [("q", Json.str "x")]) "buyer-123").1,
   (inputHash_canonical_preimage.1 (Json.obj [("q", Json.str "x")]) "buyer-123").2.1,
   (inputHash_canonical_preimage.1 (Json.obj [("q", Json.str "x")]) "buyer-123").2.2
     '0' (by decide)⟩

/-- Claim C3 counterexample: the output hash does not treat the output
string byte-for-byte; already for the one-character output consisting of a
line feed, the hash differs from the SHA-256 of the unescaped pre-image. -/
theorem outputHash_escapes_counterexample :
    ¬ (createMasumiOutputHash "\n" "a" = sha256HexOfString ("a" ++ ";" ++ "\n")) := by
  decide

/-- Claim C3 (amended): the output hash is the lowercase-hex SHA-256 of
`id + ";" + escapedOutput`, where the output is first JSON-string-escaped
(`JSON.stringify(outputData).slice(1, -1)`); for output strings containing
no quote, backslash or control character the escaping is the identity and
the byte-for-byte reading holds. -/
theorem outputHash_escaped_preimage :
    ∀ (id out : String),
      createMasumiOutputHash out id = sha256HexOfString (id ++ ";" ++ jsonEscape out) ∧
      (createMasumiOutputHash out id).length = 64 ∧
      (∀ ch ∈ (createMasumiOutputHash out id).data, ch ∈ hexDigits) ∧
      ((∀ ch ∈ out.data, ch ≠ '"' ∧ ch ≠ '\\' ∧ 32 ≤ ch.toNat) →
        createMasumiOutputHash out id = sha256HexOfString (id ++ ";" ++ out)) := by
  intro id out
  refine ⟨rfl, outputHash_length out id, sha256Hex_chars _, ?_⟩
  intro h
  unfold createMasumiOutputHash
  rw [jsonEscape_eq_self out h]

/-- Claim C3 witness: the scenario output `42` needs no escaping, so its
hash is the SHA-256 of `buyer-123;42`. -/
theorem outputHash_escaped_preimage_witness :
    createMasumiOutputHash "42" "buyer-123" = sha256HexOfString "buyer-123;42" :=
  (outputHash_escaped_preimage "buyer-123" "42").2.2.2 (by decide)

/-- Claim C1 counterexample: on the scenario payment (purchaser
`buyer-123`, input `{"q":"x"}`, output `42`) the value `submitResult`
sends as `submitResultHash` is the output digest alone, not the
concatenation `inputDigest ++ outputDigest` the claim demands. -/
theorem submitResult_concatenation_counterexample :
    (submitResultM "Preprod"
        [("pay-1", ⟨"pay-1", "buyer-123",
           some (createMasumiInputHash (Json.obj [("q", Json.str "x")]) "buyer-123"),
           some PaymentState.fundsLocked⟩)]
        (fun _ => Except.ok ⟨"pay-1", "buyer-123", none, some PaymentState.resultSubmitted⟩)
        "pay-1" "42").2.2 =
      [⟨"pay-1", "Preprod", createMasumiOutputHash "42" "buyer-123"⟩] ∧
    ¬ (createMasumiOutputHash "42" "buyer-123" =
        createMasumiInputHash (Json.obj [("q", Json.str "x")]) "buyer-123" ++
          createMasumiOutputHash "42" "buyer-123") := by
  constructor
  · rfl
  · intro hEq
    have hlen := congrArg String.length hEq
    rw [outputHash_length, String.length_append, inputHash_length, outputHash_length] at hlen
    omega

/-- Claim C1 (amended): for every tracked payment, the value submitted to
the settlement service at result submission is the output digest alone —
`createMasumiOutputHash(outputData, storedPurchaserIdentifier)`, a single
64-character lowercase-hex SHA-256 — with no concatenation of the input
digest performed at submission time. -/
theorem submitResult_sends_output_digest (network : String) (idx : Index)
    (remote : SubmitResultBody → Except String PaymentRequest) (id out : String)
    (entry : PaymentRequest) (h : getEntry idx id = some entry) :
    (submitResultM network idx remote id out).2.2 =
      [⟨id, network, createMasumiOutputHash out entry.identifierFromPurchaser⟩] ∧
    (createMasumiOutputHash out entry.identifierFromPurchaser).length = 64 := by
  refine ⟨?_, outputHash_length _ _⟩
  unfold submitResultM
  rw [h]
  cases hr : remote ⟨id, network, createMasumiOutputHash out entry.identifierFromPurchaser⟩ <;>
    simp [hr]

/-- Claim C1 witness: the amended statement evaluated on the scenario
payment. -/
theorem submitResult_sends_output_digest_witness :
    (submitResultM "Preprod"
        [("pay-1", ⟨"pay-1", "buyer-123", none, some PaymentState.fundsLocked⟩)]
        (fun _ => Except.ok ⟨"pay-1", "buyer-123", none, some PaymentState.resultSubmitted⟩)
        "pay-1" "42").2.2 =
      [⟨"pay-1", "Preprod", createMasumiOutputHash "42" "buyer-123"⟩] ∧
    (createMasumiOutputHash "42" "buyer-123").length = 64 :=
  submitResult_sends_output_digest "Preprod" _ _ "pay-1" "42"
    ⟨"pay-1", "buyer-123", none, some PaymentState.fundsLocked⟩ rfl

/-- Claim C5: a refresh stores the reported record as the new current
state and emits a state-change signal exactly when the reported state
differs from the previously stored one (strict JavaScript comparison: a
missing entry compares unequal to every report); refreshing twice with
`FundsLocked` emits `payment:funds_locked` exactly once, on the first
call, and no signal on the second. -/
theorem refresh_change_detection :
    (∀ (idx : Index) (id : String) (payment : PaymentRequest),
       getEntry (checkPaymentStatusPure idx id payment).1 id = some payment ∧
       ((checkPaymentStatusPure idx id payment).2 ≠ [] ↔
         (getEntry idx id).map PaymentRequest.onChainState ≠ some payment.onChainState) ∧
       (ManagerEvent.stateChanged id
           ((getEntry idx id).map PaymentRequest.onChainState).join payment.onChainState ∈
             (checkPaymentStatusPure idx id payment).2 ↔
         (getEntry idx id).map PaymentRequest.onChainState ≠ some payment.onChainState)) ∧
    ((checkPaymentStatusPure [] "pay-1"
        ⟨"pay-1", "buyer-123", none, some PaymentState.fundsLocked⟩).2.count
          (ManagerEvent.fundsLocked "pay-1") = 1 ∧
     (checkPaymentStatusPure
        (checkPaymentStatusPure [] "pay-1"
          ⟨"pay-1", "buyer-123", none, some PaymentState.fundsLocked⟩).1
        "pay-1" ⟨"pay-1", "buyer-123", none, some PaymentState.fundsLocked⟩).2 = []) := by
  refine ⟨?_, by decide, by decide⟩
  intro idx id payment
  refine ⟨by rw [checkStatus_idx, getEntry_setEntry_self], ?_, ?_⟩
  · by_cases hc : (getEntry idx id).map PaymentRequest.onChainState =
        some payment.onChainState
    · simp [checkPaymentStatusPure, hc]
    · simp [checkPaymentStatusPure, hc]
  · by_cases hc : (getEntry idx id).map PaymentRequest.onChainState =
        some payment.onChainState
    · simp [checkPaymentStatusPure, hc]
    · simp [checkPaymentStatusPure, hc]

/-- Claim C5 witness: one concrete refresh — the reported record is
stored, and the emitted list is nonempty exactly because the previous
state differs. -/
theorem refresh_change_detection_witness :
    getEntry (checkPaymentStatusPure [] "pay-1"
        ⟨"pay-1", "buyer-123", none, some PaymentState.fundsLocked⟩).1 "pay-1" =
      some ⟨"pay-1", "buyer-123", none, some PaymentState.fundsLocked⟩ ∧
    (checkPaymentStatusPure [] "pay-1"
        ⟨"pay-1", "buyer-123", none, some PaymentState.fundsLocked⟩).2 ≠ [] :=
  ⟨(refresh_change_detection.1 [] "pay-1"
      ⟨"pay-1", "buyer-123", none, some PaymentState.fundsLocked⟩).1,
   ((refresh_change_detection.1 [] "pay-1"
      ⟨"pay-1", "buyer-123", none, some PaymentState.fundsLocked⟩).2.1).mpr (by decide)⟩

/-- Claim C9: `submitResult` on an untracked id raises without contacting
the settlement service and leaves the index unchanged; on a tracked id it
hashes the output with the stored purchaser identifier, replaces the entry
in one step with the response, and emits `payment:result_submitted`. -/
theorem submitResult_tracking (network : String) (idx : Index)
    (remote : SubmitResultBody → Except String PaymentRequest) (id out : String) :
    (getEntry idx id = none →
       (submitResultM network idx remote id out).1 = idx ∧
       (submitResultM network idx remote id out).2.1 =
         Except.error ("Payment not found: " ++ id) ∧
       (submitResultM network idx remote id out).2.2 = []) ∧
    (∀ entry updated, getEntry idx id = some entry →
       remote ⟨id, network, createMasumiOutputHash out entry.identifierFromPurchaser⟩ =
         Except.ok updated →
       (submitResultM network idx remote id out).1 = setEntry idx id updated ∧
       (submitResultM network idx remote id out).2.1 =
         Except.ok (updated, [ManagerEvent.resultSubmittedEvt id
           (createMasumiOutputHash out entry.identifierFromPurchaser)]) ∧
       (submitResultM network idx remote id out).2.2 =
         [⟨id, network, createMasumiOutputHash out entry.identifierFromPurchaser⟩]) := by
  constructor
  · intro h
    unfold submitResultM
    rw [h]
    exact ⟨rfl, rfl, rfl⟩
  · intro entry updated h hr
    unfold submitResultM
    rw [h]
    simp [hr]

/-- Claim C9 witness: both branches evaluated concretely — an empty index
errors without any request, a tracked entry is updated and the event
emitted. -/
theorem submitResult_tracking_witness :
    ((submitResultM "Preprod" [] (fun _ => Except.error "down") "pay-1" "42").1 = [] ∧
     (submitResultM "Preprod" [] (fun _ => Except.error "down") "pay-1" "42").2.1 =
       Except.error ("Payment not found: " ++ "pay-1") ∧
     (submitResultM "Preprod" [] (fun _ => Except.error "down") "pay-1" "42").2.2 = []) ∧
    ((submitResultM "Preprod"
        [("pay-1", ⟨"pay-1", "buyer-123", none, some PaymentState.fundsLocked⟩)]
        (fun _ => Except.ok ⟨"pay-1", "buyer-123", none, some PaymentState.resultSubmitted⟩)
        "pay-1" "42").1 =
       setEntry [("pay-1", ⟨"pay-1", "buyer-123", none, some PaymentState.fundsLocked⟩)]
         "pay-1" ⟨"pay-1", "buyer-123", none, some PaymentState.resultSubmitted⟩ ∧
     (submitResultM "Preprod"
        [("pay-1", ⟨"pay-1", "buyer-123", none, some PaymentState.fundsLocked⟩)]
        (fun _ => Except.ok ⟨"pay-1", "buyer-123", none, some PaymentState.resultSubmitted⟩)
        "pay-1" "42").2.1 =
       Except.ok (⟨"pay-1", "buyer-123", none, some PaymentState.resultSubmitted⟩,
         [ManagerEvent.resultSubmittedEvt "pay-1"
           (createMasumiOutputHash "42" "buyer-123")]) ∧
     (submitResultM "Preprod"
        [("pay-1", ⟨"pay-1", "buyer-123", none, some PaymentState.fundsLocked⟩)]
        (fun _ => Except.ok ⟨"pay-1", "buyer-123", none, some PaymentState.resultSubmitted⟩)
        "pay-1" "42").2.2 =
       [⟨"pay-1", "Preprod", createMasumiOutputHash "42" "buyer-123"⟩]) :=
  ⟨(submitResult_tracking "Preprod" [] (fun _ => Except.error "down") "pay-1" "42").1 rfl,
   (submitResult_tracking "Preprod"
      [("pay-1", ⟨"pay-1", "buyer-123", none, some PaymentState.fundsLocked⟩)]
      (fun _ => Except.ok ⟨"pay-1", "buyer-123", none, some PaymentState.resultSubmitted⟩)
      "pay-1" "42").2
    ⟨"pay-1", "buyer-123", none, some PaymentState.fundsLocked⟩
    ⟨"pay-1", "buyer-123", none, some PaymentState.resultSubmitted⟩ rfl rfl⟩

/-- Claim C8: within one monitoring pass,terminal entries (Withdrawn,
RefundWithdrawn, DisputedWithdrawn) are skipped — their entry survives
untouched and no event concerns them; a failing refresh is caught and
reported as `payment:monitor_error` with that id and error, its entry
untouched; every other non-terminal entry is still refreshed to the state
the settlement service reported, all in the same pass. -/
theorem monitoring_isolation (idx : Index)
    (resolve : String → Except String PaymentRequest)
    (hnd : (idx.map Prod.fst).Nodup) :
    (∀ id p, getEntry idx id = some p → isTerminalEntry p = true →
       getEntry (monitorPass idx resolve).1 id = some p ∧
       ∀ e ∈ (monitorPass idx resolve).2, eventRef e ≠ id) ∧
    (∀ id p err, getEntry idx id = some p → isTerminalEntry p = false →
       resolve id = Except.error err →
       ManagerEvent.monitorError id err ∈ (monitorPass idx resolve).2 ∧
       getEntry (monitorPass idx resolve).1 id = some p) ∧
    (∀ id p q, getEntry idx id = some p → isTerminalEntry p = false →
       resolve id = Except.ok q →
       getEntry (monitorPass idx resolve).1 id = some q) := by
  unfold monitorPass
  refine ⟨?_, ?_, ?_⟩
  · intro id p hga hterm
    have hmem := getEntry_some_mem idx id p hga
    have H := (foldMonitor_mem resolve (idx.map Prod.fst) (idx, []) id p hnd hmem hga).1 hterm
    refine ⟨H.1, ?_⟩
    intro e he
    rcases H.2 e he with h | h
    · simp at h
    · exact h
  · intro id p err hga hterm herr
    exact (foldMonitor_mem resolve (idx.map Prod.fst) (idx, []) id p hnd
      (getEntry_some_mem idx id p hga) hga).2.1 err hterm herr
  · intro id p q hga hterm hok
    exact (foldMonitor_mem resolve (idx.map Prod.fst) (idx, []) id p hnd
      (getEntry_some_mem idx id p hga) hga).2.2 q hterm hok

/-- Claim C8 witness: a three-entry pass — one terminal entry left alone,
one entry whose refresh fails and is reported, one entry still refreshed
in the same pass. -/
theorem monitoring_isolation_witness :
    ManagerEvent.monitorError "f" "boom" ∈ (monitorPass monIdx monResolve).2 ∧
    getEntry (monitorPass monIdx monResolve).1 "g" =
      some ⟨"g", "b3", none, some PaymentState.fundsLocked⟩ ∧
    getEntry (monitorPass monIdx monResolve).1 "t" =
      some ⟨"t", "b1", none, some PaymentState.withdrawn⟩ := by
  refine ⟨?_, ?_, ?_⟩
  · exact ((monitoring_isolation monIdx monResolve (by decide)).2.1 "f"
      ⟨"f", "b2", none, some PaymentState.fundsLocked⟩ "boom" rfl rfl rfl).1
  · exact (monitoring_isolation monIdx monResolve (by decide)).2.2 "g"
      ⟨"g", "b3", none, none⟩ ⟨"g", "b3", none, some PaymentState.fundsLocked⟩ rfl rfl rfl
  · exact ((monitoring_isolation monIdx monResolve (by decide)).1 "t"
      ⟨"t", "b1", none, some PaymentState.withdrawn⟩ rfl rfl).1

/-- Claim C6: when the wrapped call fails with a 5xx server error on every
attempt, `withRetry` performs exactly `maxRetries` attempts, sleeps a
total of `initialDelay * (2^0 + 2^1 + ... + 2^(maxRetries-2))` — nothing
before the first attempt — and then rethrows the error of the last
attempt. -/
theorem retry_server_error_bound {α : Type} (fn : Nat → Except JsError α)
    (maxRetries initialDelayMs : Nat) (statusOf : Nat → Nat) (msgOf : Nat → String)
    (hfail : ∀ i, fn i = Except.error (JsError.apiError (statusOf i) (msgOf i)))
    (h5xx : ∀ i, 500 ≤ statusOf i) (hpos : 1 ≤ maxRetries) :
    (withRetry fn maxRetries initialDelayMs).attempts = maxRetries ∧
    (withRetry fn maxRetries initialDelayMs).totalDelayMs =
      initialDelayMs * (((List.range (maxRetries - 1)).map (fun i => 2 ^ i)).sum) ∧
    (withRetry fn maxRetries initialDelayMs).result = fn (maxRetries - 1) := by
  have H := retryGo_allFail fn maxRetries initialDelayMs statusOf msgOf hfail h5xx
    (maxRetries - 1) 0 (by omega)
  unfold withRetry
  rw [H]
  refine ⟨by show maxRetries - 1 + 1 = maxRetries; omega, ?_, by rw [hfail]⟩
  rw [List.range_eq_range']

/-- Claim C6 witness: a client always answering 500 with three retries and
a one-second initial delay runs three attempts, sleeps 1000 + 2000 ms in
between, and surfaces the final error. -/
theorem retry_server_error_bound_witness :
    (withRetry (fun i => (Except.error (JsError.apiError 500 (toString i)) :
        Except JsError Nat)) 3 1000).attempts = 3 ∧
    (withRetry (fun i => (Except.error (JsError.apiError 500 (toString i)) :
        Except JsError Nat)) 3 1000).totalDelayMs = 3000 ∧
    (withRetry (fun i => (Except.error (JsError.apiError 500 (toString i)) :
        Except JsError Nat)) 3 1000).result =
      Except.error (JsError.apiError 500 (toString 2)) := by
  have H := retry_server_error_bound
    (fun i => (Except.error (JsError.apiError 500 (toString i)) : Except JsError Nat))
    3 1000 (fun _ => 500) (fun i => toString i)
    (fun _ => rfl) (fun _ => Nat.le_refl 500) (by omega)
  exact ⟨H.1, H.2.1.trans (by decide), H.2.2⟩

/-- Claim C7: for every plaintext, decrypting the encryption of that
plaintext under the same key returns it exactly, the intermediate value
being the base64 blob `salt(32) ++ iv(16) ++ authTag(16) ++ ciphertext` —
for any cipher with the authenticated round-trip property of aes-256-gcm
and any key-derivation function. -/
theorem vault_roundtrip_layout (c : AeadCipher) (kdf : String → List Nat → List Nat)
    (env : Option String) (salt iv : List Nat) (s : String)
    (hc : AeadCorrect c) (hw : AeadWellFormed c)
    (hsl : salt.length = 32) (hsb : ∀ b ∈ salt, b < 256)
    (hil : iv.length = 16) (hib : ∀ b ∈ iv, b < 256) :
    decrypt c kdf env (encrypt c kdf env salt iv s) = some s ∧
    encrypt c kdf env salt iv s = String.mk (b64encode
      (salt ++ iv ++ (c.enc (kdf (getEncryptionKey env) salt) iv s).2 ++
        (c.enc (kdf (getEncryptionKey env) salt) iv s).1)) :=
  ⟨vault_roundtrip c kdf env salt iv s hc hw hsl hsb hil hib, rfl⟩

/-- Claim C7 witness: the round trip evaluated with the concrete toy
cipher, a 32-byte salt and a 16-byte iv. -/
theorem vault_roundtrip_layout_witness :
    decrypt toyAead toyKdf (some "secret-key")
      (encrypt toyAead toyKdf (some "secret-key")
        (List.replicate 32 3) (List.replicate 16 4) "my mnemonic") = some "my mnemonic" :=
  (vault_roundtrip_layout toyAead toyKdf (some "secret-key")
    (List.replicate 32 3) (List.replicate 16 4) "my mnemonic"
    toyAead_correct toyAead_wf
    (by simp) (fun b hb => by rw [List.eq_of_mem_replicate hb]; omega)
    (by simp) (fun b hb => by rw [List.eq_of_mem_replicate hb]; omega)).1

/-- Claim C10: with the environment variable unset, `getEncryptionKey`
silently returns the fixed built-in password instead of raising a
configuration error, and the encrypt/decrypt round trip still succeeds
under that default — so any party running with the unset-key default
decrypts a blob produced under it. -/
theorem default_key_fallback (c : AeadCipher) (kdf : String → List Nat → List Nat)
    (salt iv : List Nat) (s : String)
    (hc : AeadCorrect c) (hw : AeadWellFormed c)
    (hsl : salt.length = 32) (hsb : ∀ b ∈ salt, b < 256)
    (hil : iv.length = 16) (hib : ∀ b ∈ iv, b < 256) :
    getEncryptionKey none = "default-encryption-key-change-me-in-production" ∧
    decrypt c kdf none (encrypt c kdf none salt iv s) = some s :=
  ⟨rfl, vault_roundtrip c kdf none salt iv s hc hw hsl hsb hil hib⟩

/-- Claim C10 witness: the unset-key fallback evaluated with the toy
cipher. -/
theorem default_key_fallback_witness :
    getEncryptionKey none = "default-encryption-key-change-me-in-production" ∧
    decrypt toyAead toyKdf none
      (encrypt toyAead toyKdf none (List.replicate 32 5) (List.replicate 16 6)
        "wallet words") = some "wallet words" :=
  default_key_fallback toyAead toyKdf (List.replicate 32 5) (List.replicate 16 6)
    "wallet words" toyAead_correct toyAead_wf
    (by simp) (fun b hb => by rw [List.eq_of_mem_replicate hb]; omega)
    (by simp) (fun b hb => by rw [List.eq_of_mem_replicate hb]; omega)

/-- Claim C2 (code bug): `saveCredentials` writes no plaintext mnemonic,
but `updateCredentials` spreads the loaded record — which carries the
decrypted mnemonic — back into the file it writes, so after one update the
credential file holds the recovery phrase in plaintext. -/
theorem update_writes_plaintext_mnemonic :
    (saveCredentials toyAead toyKdf none (List.replicate 32 1) (List.replicate 16 2)
        ⟨"agent-1", "Preprod", "addr1x", "vkey1", "abandon ability able", none, none⟩
        "t0").mnemonic = none ∧
    (updateCredentials toyAead toyKdf none
        (saveCredentials toyAead toyKdf none (List.replicate 32 1) (List.replicate 16 2)
          ⟨"agent-1", "Preprod", "addr1x", "vkey1", "abandon ability able", none, none⟩
          "t0")
        ⟨some "api-key-1", none⟩ "t1").map CredFile.mnemonic =
      some (some "abandon ability able") := by
  exact ⟨rfl, by decide⟩

end Masumi
